import Mathlib

/-!
Verification development for the Wizard-Site repository: a shallow embedding
of the host controller (PreviewFrame), the sandboxed document runtime
(the injected editor script), the serialization/cleanup routine
(`getCleanHTML`), and the bounded persistent history store
(`saveToHistory`), together with theorems settling the spec's claims.
-/

set_option maxRecDepth 10000

namespace WizardSite

/-! ## Association-list helpers

Inline styles and attributes of a DOM element are modelled as association
lists from names to string values.  Setting a CSS property to the empty
string removes it from the inline style, matching `el.style.x = ''` in the
browser. -/

def getAssoc (k : String) : List (String × String) → Option String
  | [] => none
  | (k', v') :: rest => if k' = k then some v' else getAssoc k rest

def removeAssoc (k : String) (l : List (String × String)) : List (String × String) :=
  l.filter (fun p => p.1 ≠ k)

def setAssoc (k v : String) : List (String × String) → List (String × String)
  | [] => [(k, v)]
  | (k', v') :: rest => if k' = k then (k, v) :: rest else (k', v') :: setAssoc k v rest

/-- `el.style[k] = v`: the empty string removes the property, any other
value overwrites it. -/
def setStyleProp (k v : String) (l : List (String × String)) : List (String × String) :=
  if v = "" then removeAssoc k l else setAssoc k v l

/-- Reading `el.style[k]` yields `""` when the property is absent. -/
def styleValue (k : String) (l : List (String × String)) : String :=
  (getAssoc k l).getD ""

/-! ## Host controller (src/unnamed/part_004, `PreviewFrame`)

The controller state consists of the reactive markup value exposed to the
application (`generatedCode`, updated through `onCodeUpdate` /
`setGeneratedCode`), the last-known reference `internalCodeRef.current`,
and the iframe `key` whose increment forces a hard teardown-and-rebuild of
the sandboxed runtime. -/

structure FrameSync where
  generatedCode : String
  internalCode : String
  iframeKey : Nat
deriving DecidableEq, Repr

/-- The `useEffect` on `[code]` (part_004 lines 489-495): when the prop
differs from the last-known reference, update the reference and bump the
iframe key (hard reload); otherwise do nothing. -/
def propsEffect (s : FrameSync) : FrameSync :=
  if s.generatedCode ≠ s.internalCode then
    { s with internalCode := s.generatedCode, iframeKey := s.iframeKey + 1 }
  else s

/-- An externally supplied markup value (AI generation or a loaded history
record) sets the application's `generatedCode`, after which the effect
runs. -/
def externalMarkup (s : FrameSync) (code : String) : FrameSync :=
  propsEffect { s with generatedCode := code }

/-- `handleMessage` on `CODE_UPDATED_FROM_EDITOR` (part_004 lines 498-511):
the last-known reference is updated together with the exposed value
(`internalCodeRef.current = event.data.code` then `onCodeUpdate`), after
which the effect runs against the already-updated reference. -/
def receiveSnapshot (s : FrameSync) (snapshot : String) : FrameSync :=
  propsEffect { s with internalCode := snapshot, generatedCode := snapshot }

/-! ## History store (src/unnamed/part_003, `saveToHistory`) -/

structure HistoryItem where
  id : String
  timestamp : Nat
  code : String
  image : Option String
  prompt : String
  paletteName : String
  fontFamily : String
  colorsPrimary : String
  colorsAccent : String
deriving DecidableEq, Repr

/-- Outcome of `saveToHistory`: the in-memory list handed to `setHistory`,
the contents of the persistent store after the call (`none` when nothing
was ever successfully written), whether any write succeeded, and the final
value of the `attempts` counter (number of rejected writes). -/
structure SaveResult where
  history : List HistoryItem
  persisted : Option (List HistoryItem)
  success : Bool
  attempts : Nat
deriving DecidableEq, Repr

/-- The retry loop of `saveToHistory` (part_003 lines 173-188).
`accepts` models the persistent store: `localStorage.setItem` succeeds
exactly on lists accepted by it.  The loop guard is the source's
`!success && currentHistory.length > 0 && attempts < currentHistory.length + 1`,
where `currentHistory.length` is the CURRENT (shrinking) length, and each
rejected write pops the oldest (last) record. -/
def persistLoop (accepts : List HistoryItem → Bool) (cur : List HistoryItem)
    (persisted : Option (List HistoryItem)) (attempts : Nat) : SaveResult :=
  if h : 0 < cur.length ∧ attempts < cur.length + 1 then
    if accepts cur then ⟨cur, some cur, true, attempts⟩
    else persistLoop accepts cur.dropLast persisted (attempts + 1)
  else ⟨cur, persisted, false, attempts⟩
termination_by cur.length
decreasing_by simp [List.length_dropLast]; omega

/-- `saveToHistory` (part_003 lines 155-189): prepend the new record,
truncate to capacity 12, then run the persistence retry loop. -/
def saveToHistory (accepts : List HistoryItem → Bool) (history : List HistoryItem)
    (item : HistoryItem) (persisted : Option (List HistoryItem)) : SaveResult :=
  let cur := item :: history
  let cur := if cur.length > 12 then cur.take 12 else cur
  persistLoop accepts cur persisted 0

/-- The history reached after a sequence of successful generations, each of
which calls `saveToHistory` on the current history (part_003
`handleGenerate`, lines 213-232).  Records are listed in generation
order (oldest first). -/
def runGenerations (accepts : List HistoryItem → Bool) (records : List HistoryItem) :
    List HistoryItem :=
  records.foldl (fun h r => (saveToHistory accepts h r none).history) []

/-! ## The live document tree

A DOM element is a node with an identity (modelling JavaScript object
identity, so two distinct elements always carry distinct `nid`s), a tag
name, attributes, inline style and text content, plus an ordered list of
child elements. -/

inductive Dom : Type where
  | node (nid : Nat) (tag : String) (attrs : List (String × String))
      (style : List (String × String)) (text : String) (children : List Dom) : Dom
deriving Repr

def Dom.nidOf : Dom → Nat
  | .node i _ _ _ _ _ => i

def Dom.tagOf : Dom → String
  | .node _ t _ _ _ _ => t

def Dom.attrsOf : Dom → List (String × String)
  | .node _ _ a _ _ _ => a

def Dom.styleOf : Dom → List (String × String)
  | .node _ _ _ s _ _ => s

def Dom.textOf : Dom → String
  | .node _ _ _ _ t _ => t

def Dom.childrenOf : Dom → List Dom
  | .node _ _ _ _ _ cs => cs

mutual

/-- Does a node with identity `t` occur anywhere in the tree? -/
def occursB (t : Nat) : Dom → Bool
  | .node i _ _ _ _ cs => i == t || occursListB t cs

def occursListB (t : Nat) : List Dom → Bool
  | [] => false
  | c :: rest => occursB t c || occursListB t rest

end

mutual

/-- Number of nodes with identity `t` in the tree. -/
def countId (t : Nat) : Dom → Nat
  | .node i _ _ _ _ cs => (if i = t then 1 else 0) + countIdList t cs

def countIdList (t : Nat) : List Dom → Nat
  | [] => 0
  | c :: rest => countId t c + countIdList t rest

end

mutual

/-- Does `t` occur as a child of some node (i.e. is it a non-root
occurrence)? -/
def occursAsChildB (t : Nat) : Dom → Bool
  | .node _ _ _ _ _ cs => occursAsChildListB t cs

def occursAsChildListB (t : Nat) : List Dom → Bool
  | [] => false
  | c :: rest => c.nidOf == t || occursAsChildB t c || occursAsChildListB t rest

end

mutual

/-- First node (in document preorder) with identity `t`. -/
def findById (t : Nat) : Dom → Option Dom
  | .node i tg a s tx cs =>
    if i = t then some (.node i tg a s tx cs) else findByIdList t cs

def findByIdList (t : Nat) : List Dom → Option Dom
  | [] => none
  | c :: rest =>
    match findById t c with
    | some d => some d
    | none => findByIdList t rest

end

mutual

/-- `el.remove()` for every node with identity `t` (under unique
identities: the one such element); the root is never removed. -/
def removeById (t : Nat) : Dom → Dom
  | .node i tg a s tx cs => .node i tg a s tx (removeByIdList t cs)

def removeByIdList (t : Nat) : List Dom → List Dom
  | [] => []
  | c :: rest =>
    if c.nidOf = t then removeByIdList t rest
    else removeById t c :: removeByIdList t rest

end

mutual

/-- `target.parentNode.insertBefore(x, target)`: insert `x` immediately
before the first sibling with identity `t` in each children list that
contains one. -/
def insB (t : Nat) (x : Dom) : Dom → Dom
  | .node i tg a s tx cs => .node i tg a s tx (insBList t x cs)

def insBList (t : Nat) (x : Dom) : List Dom → List Dom
  | [] => []
  | c :: rest =>
    if c.nidOf = t then x :: c :: rest
    else insB t x c :: insBList t x rest

end

mutual

/-- `target.parentNode.insertBefore(x, target.nextSibling)`: insert `x`
immediately after the first sibling with identity `t`. -/
def insA (t : Nat) (x : Dom) : Dom → Dom
  | .node i tg a s tx cs => .node i tg a s tx (insAList t x cs)

def insAList (t : Nat) (x : Dom) : List Dom → List Dom
  | [] => []
  | c :: rest =>
    if c.nidOf = t then c :: x :: rest
    else insA t x c :: insAList t x rest

end

mutual

/-- `parent.appendChild(x)` on the node with identity `p`. -/
def appendUnder (p : Nat) (x : Dom) : Dom → Dom
  | .node i tg a s tx cs =>
    if i = p then .node i tg a s tx (cs ++ [x])
    else .node i tg a s tx (appendUnderList p x cs)

def appendUnderList (p : Nat) (x : Dom) : List Dom → List Dom
  | [] => []
  | c :: rest => appendUnder p x c :: appendUnderList p x rest

end

/-- A per-node modification of attributes and inline style (identity, tag,
text and children are untouched). -/
structure NodeMod where
  attrs : List (String × String) → List (String × String)
  style : List (String × String) → List (String × String)

mutual

/-- Apply a modification to every node with identity `t` (under unique
identities: the one such element). -/
def modById (t : Nat) (m : NodeMod) : Dom → Dom
  | .node i tg a s tx cs =>
    if i = t then .node i tg (m.attrs a) (m.style s) tx (modByIdList t m cs)
    else .node i tg a s tx (modByIdList t m cs)

def modByIdList (t : Nat) (m : NodeMod) : List Dom → List Dom
  | [] => []
  | c :: rest => modById t m c :: modByIdList t m rest

end

mutual

/-- Apply a modification to every node whose identity differs from
`keep`. -/
def modExcept (keep : Nat) (m : NodeMod) : Dom → Dom
  | .node i tg a s tx cs =>
    if i = keep then .node i tg a s tx (modExceptList keep m cs)
    else .node i tg (m.attrs a) (m.style s) tx (modExceptList keep m cs)

def modExceptList (keep : Nat) (m : NodeMod) : List Dom → List Dom
  | [] => []
  | c :: rest => modExcept keep m c :: modExceptList keep m rest

end

/-- `el.style[k] = v` on the element with identity `t`. -/
def setStyleById (t : Nat) (k v : String) (d : Dom) : Dom :=
  modById t ⟨id, setStyleProp k v⟩ d

/-- `el.removeAttribute(k)` on the element with identity `t`. -/
def removeAttrById (t : Nat) (k : String) (d : Dom) : Dom :=
  modById t ⟨removeAssoc k, id⟩ d

/-- `el.setAttribute(k, v)` on the element with identity `t`
(`el.contentEditable = 'true'` reflects to the attribute). -/
def setAttrById (t : Nat) (k v : String) (d : Dom) : Dom :=
  modById t ⟨setAssoc k v, id⟩ d

/-- Inline style of the first node with identity `t`, read with the DOM
default `""` for absent properties. -/
def styleValueById (t : Nat) (k : String) (d : Dom) : String :=
  match findById t d with
  | some n => styleValue k n.styleOf
  | none => ""

/-- Attribute `k` of the first node with identity `t`. -/
def attrValueById (t : Nat) (k : String) (d : Dom) : Option String :=
  match findById t d with
  | some n => getAssoc k n.attrsOf
  | none => none

mutual

/-- `a` immediately precedes `b` in some sibling list of the tree. -/
def hasAdjPairB (a b : Nat) : Dom → Bool
  | .node _ _ _ _ _ cs => adjInListB a b cs

def adjInListB (a b : Nat) : List Dom → Bool
  | [] => false
  | [c] => hasAdjPairB a b c
  | c :: c' :: rest =>
    (c.nidOf == a && c'.nidOf == b) || hasAdjPairB a b c || adjInListB a b (c' :: rest)

end

/-! ### Structural shape (identity and tag tree, styles and attributes
erased) -/

inductive Shape : Type where
  | mk (nid : Nat) (tag : String) (children : List Shape) : Shape
deriving Repr

mutual

def Dom.shape : Dom → Shape
  | .node i tg _ _ _ cs => .mk i tg (shapeList cs)

def shapeList : List Dom → List Shape
  | [] => []
  | c :: rest => Dom.shape c :: shapeList rest

end

/-! ## Serialization & cleanup (`getCleanHTML`, part_004 lines 308-325)

The serializer prints a node as `<tag attrs style>text children</tag>`;
style properties are printed under their script-side names, a bijective
renaming of the CSS names the browser would emit. -/

def serializeAttrs (a : List (String × String)) : String :=
  String.join (a.map (fun p => " " ++ p.1 ++ "=\"" ++ p.2 ++ "\""))

def serializeStyleAttr (s : List (String × String)) : String :=
  if s.isEmpty then ""
  else " style=\"" ++ String.intercalate "; " (s.map (fun p => p.1 ++ ": " ++ p.2)) ++ "\""

mutual

def serializeDom : Dom → String
  | .node _ tg a s tx cs =>
    "<" ++ tg ++ serializeAttrs a ++ serializeStyleAttr s ++ ">" ++ tx
      ++ serializeDomList cs ++ "</" ++ tg ++ ">"

def serializeDomList : List Dom → String
  | [] => ""
  | c :: rest => serializeDom c ++ serializeDomList rest

end

/-- `clone.querySelector('#wizard-editor-runtime')` matches on the `id`
attribute. -/
def isEditorRuntime (c : Dom) : Bool :=
  getAssoc "id" c.attrsOf == some "wizard-editor-runtime"

mutual

/-- Remove the first node (in document preorder) whose `id` attribute is
`wizard-editor-runtime`; the boolean records whether a removal happened. -/
def removeEditorScript : Dom → Dom × Bool
  | .node i tg a s tx cs =>
    let r := removeEditorScriptList cs
    (.node i tg a s tx r.1, r.2)

def removeEditorScriptList : List Dom → List Dom × Bool
  | [] => ([], false)
  | c :: rest =>
    if isEditorRuntime c then (rest, true)
    else
      let rc := removeEditorScript c
      if rc.2 then (rc.1 :: rest, true)
      else
        let rr := removeEditorScriptList rest
        (rc.1 :: rr.1, rr.2)

end

mutual

/-- The per-element cleanup pass of `getCleanHTML`: clear `outline` and
`outlineOffset` wherever `outline` is set, and drop any `contenteditable`
attribute. -/
def cleanArtifacts : Dom → Dom
  | .node i tg a s tx cs =>
    let s' := if styleValue "outline" s ≠ "" then
        setStyleProp "outlineOffset" "" (setStyleProp "outline" "" s)
      else s
    let a' := if (getAssoc "contenteditable" a).isSome then removeAssoc "contenteditable" a
      else a
    .node i tg a' s' tx (cleanArtifactsList cs)

def cleanArtifactsList : List Dom → List Dom
  | [] => []
  | c :: rest => cleanArtifacts c :: cleanArtifactsList rest

end

/-- `getCleanHTML`: clone the document element, strip the injected editor
runtime and editing artifacts from the clone, and emit the doctype plus
the clone's markup.  The second component is the live document after the
call; the source operates on `document.documentElement.cloneNode(true)`,
so the live tree is returned untouched. -/
def getCleanHTML (doc : Dom) : String × Dom :=
  let clone := doc
  let clone := (removeEditorScript clone).1
  let clone := cleanArtifacts clone
  ("<!DOCTYPE html>\n" ++ serializeDom clone, doc)

/-! ## Runtime injection (`getFinalCode`, part_004 lines 482-486) -/

/-- Split a character list at the first occurrence of `pat`, returning the
part before and the part after the occurrence. -/
def splitFirst (pat : List Char) : List Char → Option (List Char × List Char)
  | [] => if pat.isEmpty then some ([], []) else none
  | c :: rest =>
    if pat.isPrefixOf (c :: rest) then some ([], (c :: rest).drop pat.length)
    else
      match splitFirst pat rest with
      | some (pre, post) => some (c :: pre, post)
      | none => none

/-- `raw.includes(pat)`. -/
def containsSub (s pat : String) : Bool :=
  (splitFirst pat.toList s.toList).isSome

/-- `s.replace(pat, rep)` with a string pattern: replace the first
occurrence only. -/
def replaceFirstSub (s pat rep : String) : String :=
  match splitFirst pat.toList s.toList with
  | some (pre, post) => String.mk pre ++ rep ++ String.mk post
  | none => s

/-- `getFinalCode`: place the editor runtime just before `</body>` when the
markup has one, otherwise append it at the end of the document. -/
def getFinalCode (script raw : String) : String :=
  if containsSub raw "</body>" then replaceFirstSub raw "</body>" (script ++ "</body>")
  else raw ++ script

/-! ## Sandbox capability grants -/

/-- `sandbox` attribute of the editor preview iframe
(src/unnamed/part_004 line 528). -/
def editorSandboxGrant : List String :=
  ["allow-scripts", "allow-forms", "allow-modals", "allow-same-origin"]

/-- `sandbox` attribute of the basic preview iframe
(src/components/PreviewFrame.tsx). -/
def basicSandboxGrant : List String :=
  ["allow-scripts", "allow-forms", "allow-modals"]

def allowsScripts (g : List String) : Bool := g.contains "allow-scripts"

def allowsForms (g : List String) : Bool := g.contains "allow-forms"

def allowsTopNavigation (g : List String) : Bool :=
  g.contains "allow-top-navigation" || g.contains "allow-top-navigation-by-user-activation"

/-- `allow-same-origin` on a `srcDoc` iframe makes the sandboxed document
run with the embedding page's origin. -/
def grantsHostOrigin (g : List String) : Bool := g.contains "allow-same-origin"

/-- Modelled from the HTML `sandbox`-attribute semantics (the browser is
outside this repository): a sandboxed `srcDoc` document is confined to its
own rendering surface — unable to touch the host document, host storage,
credentialed host-origin requests, the top-level browsing context or new
windows — exactly when the grant withholds `allow-same-origin`,
top-level-navigation and popup tokens. -/
def confinedToSurface (g : List String) : Bool :=
  !grantsHostOrigin g && !allowsTopNavigation g && !g.contains "allow-popups"

/-! ## Document runtime state and message handlers
(the editor script injected by `PreviewFrame`, part_004 lines 298-479) -/

/-- Runtime-local state: the live tree, the current selection
(`selectedElement`), the edit-mode flag (`isEditingMode`) and the identity
of `document.body` (the root of the tree is `document.documentElement`). -/
structure RtState where
  doc : Dom
  selected : Option Nat
  editMode : Bool
  bodyId : Nat
deriving Repr

/-- Messages posted to the host controller.  The resolved colors of
`ELEMENT_SELECTED` come from `getComputedStyle` (rendering engine, not
modelled). -/
inductive EmittedMsg : Type where
  | codeUpdated (code : String)
  | elementSelected (tag text : String)
deriving Repr, DecidableEq

/-- `syncCode()`: post the cleaned serialization of the live tree. -/
def syncMsg (d : Dom) : EmittedMsg := .codeUpdated (getCleanHTML d).1

/-- The style reset applied by `updateSelectionUI` to every element other
than the one being highlighted. -/
def clearOutlineMod : NodeMod :=
  ⟨id, fun s => setStyleProp "outlineOffset" "" (setStyleProp "outline" "" s)⟩

/-- `updateSelectionUI(el)` (part_004 lines 335-348): clear the outline of
every other element, then, in edit mode, outline the given element. -/
def updateSelectionUI (el : Nat) (editMode : Bool) (d : Dom) : Dom :=
  let d := modExcept el clearOutlineMod d
  if editMode then
    setStyleById el "outlineOffset" "-3px" (setStyleById el "outline" "3px solid #8b5cf6" d)
  else d

/-- The simple-click branch of the `mouseup` handler (part_004 lines
407-426): drop the previous selection's editability, highlight and select
the clicked element, make it editable, and report the selection. -/
def applySelectClick (st : RtState) (target : Nat) : RtState × List EmittedMsg :=
  let d := match st.selected with
    | some p => removeAttrById p "contenteditable" st.doc
    | none => st.doc
  let d := updateSelectionUI target st.editMode d
  let d := setAttrById target "contenteditable" "true" d
  ({ st with doc := d, selected := some target },
   [.elementSelected (((findById target d).map Dom.tagOf).getD "")
      (((findById target d).map Dom.textOf).getD "")])

/-- The `SET_EDIT_MODE` handler (part_004 lines 453-462). -/
def handleSetEditMode (st : RtState) (payload : Bool) : RtState :=
  let st := { st with editMode := payload }
  let st :=
    if payload = false then
      match st.selected with
      | some s =>
        { st with
          doc := removeAttrById s "contenteditable" (setStyleById s "outline" "" st.doc),
          selected := none }
      | none => st
    else st
  { st with doc := setStyleById st.bodyId "cursor" (if payload then "crosshair" else "default") st.doc }

/-- The `ADD_ELEMENT` handler (part_004 lines 440-451).  `newId` is the
fresh identity of the element created by `document.createElement`. -/
def handleAddElement (st : RtState) (tag text className : String) (newId : Nat) :
    RtState × List EmittedMsg :=
  let el : Dom := .node newId tag
      [("class", if className = "" then "p-4 m-2 rounded-lg" else className)] []
      (if text = "" then "New Element" else text) []
  let d := match st.selected with
    | some s =>
      if occursAsChildB s st.doc then insA s el st.doc
      else appendUnder st.bodyId el st.doc
    | none => appendUnder st.bodyId el st.doc
  ({ st with doc := d }, [syncMsg d])

/-- The `UPDATE_STYLE` handler, guarded by `if (!selectedElement) return`
(part_004 lines 464-469). -/
def handleUpdateStyle (st : RtState) (k v : String) : RtState × List EmittedMsg :=
  match st.selected with
  | none => (st, [])
  | some s =>
    let d := setStyleById s k v st.doc
    ({ st with doc := d }, [syncMsg d])

/-- The `DELETE_ELEMENT` handler, guarded by `if (!selectedElement) return`
(part_004 lines 464, 471-475). -/
def handleDeleteElement (st : RtState) : RtState × List EmittedMsg :=
  match st.selected with
  | none => (st, [])
  | some s =>
    let d := removeById s st.doc
    ({ st with doc := d, selected := none }, [syncMsg d])

/-! ## Drag completion (the dragging branch of `mouseup`,
part_004 lines 386-406) -/

/-- `getBoundingClientRect()` of the drop target; coordinates are modelled
as exact rationals. -/
structure Rect where
  top : Rat
  height : Rat
deriving Repr

/-- Drag completion: restore the dragged element's drag affordance, then,
when `elementFromPoint` yielded an element that is neither the dragged
element, the body, nor the document element, insert the dragged element
before or after it according to the release point against the target's
vertical midpoint; finally emit a snapshot and re-run the selection UI on
the dragged element.  `dropT` carries the hit-tested element and its
bounding rect (`none` when `elementFromPoint` found nothing). -/
def applyDrop (st : RtState) (dragId : Nat) (dropT : Option (Nat × Rect)) (clientY : Rat) :
    RtState × List EmittedMsg :=
  let d := setStyleById dragId "pointerEvents" "" (setStyleById dragId "opacity" "" st.doc)
  let d :=
    match dropT with
    | none => d
    | some (t, rect) =>
      if t ≠ dragId ∧ t ≠ st.bodyId ∧ t ≠ d.nidOf then
        match findById dragId d with
        | none => d
        | some dsub =>
          let detached := removeById dragId d
          if clientY < rect.top + rect.height / 2 then insB t dsub detached
          else insA t dsub detached
      else d
  let msg := syncMsg d
  let d := updateSelectionUI dragId st.editMode d
  ({ st with doc := d }, [msg])

/-! ## Concrete fixtures used by witnesses and counterexamples -/

/-- A concrete history record. -/
def mkItem (n : Nat) : HistoryItem :=
  ⟨toString n, n, "<html></html>", none, "a prompt", "Midnight Pro", "Inter",
   "#0f172a", "#8b5cf6"⟩

/-- A small concrete document: `html` (identity 0) containing `body`
(identity 1) with a paragraph (2) and a div (3). -/
def sampleDoc : Dom :=
  .node 0 "html" [] [] "" [
    .node 1 "body" [] [] "" [
      .node 2 "p" [] [] "Hi" [],
      .node 3 "div" [("class", "box")] [] "X" []]]

/-- Runtime state over `sampleDoc` with edit mode on and no selection. -/
def sampleState : RtState := ⟨sampleDoc, none, true, 1⟩

/-! # Theorems -/

/-- C1: the host controller reloads the sandboxed runtime exactly when an
incoming markup value differs from the last-known reference: a differing
external markup bumps the iframe key (hard teardown/rebuild) and updates
the reference; an equal one leaves the key and reference alone; a
`SYNC_SNAPSHOT` updates the reference together with the exposed value, so
it never bumps the key, and the subsequent effect run on the echoed value
does not either. -/
theorem host_reload_exactly_on_new_markup (s : FrameSync) (code snap : String) :
    (code ≠ s.internalCode →
      (externalMarkup s code).iframeKey = s.iframeKey + 1 ∧
      (externalMarkup s code).internalCode = code) ∧
    (code = s.internalCode →
      externalMarkup s code = { s with generatedCode := code }) ∧
    (receiveSnapshot s snap).iframeKey = s.iframeKey ∧
    (receiveSnapshot s snap).internalCode = snap ∧
    (externalMarkup (receiveSnapshot s snap) snap).iframeKey
      = (receiveSnapshot s snap).iframeKey := by
  refine ⟨fun h => ?_, fun h => ?_, ?_, ?_, ?_⟩ <;>
    simp_all [externalMarkup, receiveSnapshot, propsEffect]

theorem host_reload_exactly_on_new_markup_witness :
    (externalMarkup ⟨"a", "a", 0⟩ "b").iframeKey = 0 + 1 ∧
    (externalMarkup (receiveSnapshot ⟨"a", "a", 0⟩ "c") "c").iframeKey
      = (receiveSnapshot ⟨"a", "a", 0⟩ "c").iframeKey :=
  ⟨((host_reload_exactly_on_new_markup ⟨"a", "a", 0⟩ "b" "c").1 (by decide)).1,
   (host_reload_exactly_on_new_markup ⟨"a", "a", 0⟩ "b" "c").2.2.2.2⟩

/-- C2: `getCleanHTML` leaves the live tree untouched (it works on a
clone), so applying it twice with no intervening mutation yields
byte-identical strings, and equal trees always yield equal strings. -/
theorem getCleanHTML_deterministic_idempotent (d₁ d₂ : Dom) :
    (getCleanHTML d₁).2 = d₁ ∧
    (getCleanHTML ((getCleanHTML d₁).2)).1 = (getCleanHTML d₁).1 ∧
    (d₁ = d₂ → (getCleanHTML d₁).1 = (getCleanHTML d₂).1) :=
  ⟨rfl, rfl, fun h => by rw [h]⟩

theorem getCleanHTML_deterministic_idempotent_witness :
    (getCleanHTML ((getCleanHTML sampleDoc).2)).1 = (getCleanHTML sampleDoc).1 ∧
    (getCleanHTML sampleDoc).1 = (getCleanHTML sampleDoc).1 :=
  ⟨(getCleanHTML_deterministic_idempotent sampleDoc sampleDoc).2.1,
   (getCleanHTML_deterministic_idempotent sampleDoc sampleDoc).2.2 rfl⟩

/-- C3 (failing input): with a persistent store of capacity K = 1 — any
list longer than one record is rejected — and an existing history of
K + 5 = 6 records, `saveToHistory` prepends the new record and then gives
up after four rejected writes, because the retry guard compares the
attempt counter against the current, shrinking list length.  Three
records remain in memory and nothing is persisted, so no persisted list
of size ≤ K headed by the new record exists. -/
theorem saveToHistory_capacity_one_never_persists :
    saveToHistory (fun l => l.length ≤ 1)
        [mkItem 0, mkItem 1, mkItem 2, mkItem 3, mkItem 4, mkItem 5] (mkItem 6) none
      = ⟨[mkItem 6, mkItem 0, mkItem 1], none, false, 4⟩ := by
  simp [saveToHistory, persistLoop, List.dropLast]

/-- C4 (failing input): with a store that rejects every write, the
persistence loop on a 4-record list performs three write attempts and then
stops — `attempts < currentHistory.length + 1` fails at 3 < 2 — with one
record still in the list, instead of repeating until the write succeeds or
the list becomes empty. -/
theorem persistLoop_stops_before_empty :
    persistLoop (fun _ => false) [mkItem 0, mkItem 1, mkItem 2, mkItem 3] none 0
      = ⟨[mkItem 0], none, false, 3⟩ := by
  simp [persistLoop, List.dropLast]

/-- C7 counterexample: the editor preview iframe's sandbox grant includes
`allow-same-origin`, so its `srcDoc` document runs with the host page's
origin and is not confined to its own rendering surface — refuting the
claim that the grant withholds everything beyond the message channel. -/
theorem editor_sandbox_not_confined :
    grantsHostOrigin editorSandboxGrant = true ∧
    confinedToSurface editorSandboxGrant = false := by decide

/-- C7 amended: both preview iframes' grants permit script execution and
form interaction and withhold top-level navigation; the basic frame
(src/components/PreviewFrame.tsx) is confined to its own rendering
surface, but the editor frame (part_004) additionally grants
`allow-same-origin`, so its document shares the host origin. -/
theorem sandbox_grants_audit :
    allowsScripts editorSandboxGrant = true ∧
    allowsForms editorSandboxGrant = true ∧
    allowsTopNavigation editorSandboxGrant = false ∧
    allowsScripts basicSandboxGrant = true ∧
    allowsForms basicSandboxGrant = true ∧
    allowsTopNavigation basicSandboxGrant = false ∧
    confinedToSurface basicSandboxGrant = true ∧
    grantsHostOrigin editorSandboxGrant = true := by decide

/-- One successful persistence of the full (already truncated) list when
the store accepts every write. -/
theorem saveToHistory_accepting (accepts : List HistoryItem → Bool)
    (h : ∀ l, accepts l = true) (hist : List HistoryItem) (item : HistoryItem)
    (p : Option (List HistoryItem)) :
    (saveToHistory accepts hist item p).history = (item :: hist).take 12 := by
  unfold saveToHistory
  rw [persistLoop]
  by_cases h1 : 12 < hist.length + 1
  · simp [h1, h]
  · have h2 : (item :: hist).length ≤ 12 := by simp; omega
    simp [h1, h, List.take_of_length_le h2]

theorem take_append_take (n : Nat) (xs ys : List HistoryItem) :
    (xs ++ ys.take n).take n = (xs ++ ys).take n := by
  rw [List.take_append_eq_append_take, List.take_append_eq_append_take, List.take_take]
  congr 2
  omega

theorem foldl_take_twelve (records acc : List HistoryItem) (hacc : acc.length ≤ 12) :
    records.foldl (fun hst r => ((r :: hst).take 12)) acc
      = (records.reverse ++ acc).take 12 := by
  induction records generalizing acc with
  | nil => simp [List.take_of_length_le hacc]
  | cons r rest ih =>
    simp only [List.foldl_cons]
    rw [ih ((r :: acc).take 12) (by simp), take_append_take]
    simp

/-- C5: each append prepends the new record and truncates to capacity 12,
so after any sequence of more than 12 successful generations (with a
store that accepts every write) the history holds exactly the 12 most
recent records, newest first. -/
theorem history_bound_after_generations (accepts : List HistoryItem → Bool)
    (records : List HistoryItem) (hacc : ∀ l, accepts l = true)
    (hn : 12 < records.length) :
    (∀ hst item p, (saveToHistory accepts hst item p).history = (item :: hst).take 12) ∧
    runGenerations accepts records = records.reverse.take 12 ∧
    (runGenerations accepts records).length = 12 := by
  have hrun : runGenerations accepts records = records.reverse.take 12 := by
    unfold runGenerations
    rw [List.foldl_ext (fun hst r => (saveToHistory accepts hst r none).history)
      (fun hst r => (r :: hst).take 12) []
      (fun a b _ => saveToHistory_accepting accepts hacc a b none)]
    simpa using foldl_take_twelve records [] (by simp)
  refine ⟨fun hst item p => saveToHistory_accepting accepts hacc hst item p, hrun, ?_⟩
  rw [hrun]
  simp
  omega

theorem history_bound_after_generations_witness :
    runGenerations (fun _ => true) ((List.range 13).map mkItem)
      = ((List.range 13).map mkItem).reverse.take 12 ∧
    (runGenerations (fun _ => true) ((List.range 13).map mkItem)).length = 12 :=
  ⟨(history_bound_after_generations (fun _ => true) ((List.range 13).map mkItem)
      (fun _ => rfl) (by simp)).2.1,
   (history_bound_after_generations (fun _ => true) ((List.range 13).map mkItem)
      (fun _ => rfl) (by simp)).2.2⟩

/-- C10: every serialized snapshot is the literal header
`<!DOCTYPE html>\n` followed by the (cleaned) root element's markup,
whatever doctype the loaded markup had; and markup without a closing
`</body>` marker gets the runtime appended at its end, so its snapshot is
still a single doctype-headed document. -/
theorem serialized_snapshot_doctype_header (d : Dom) (script raw : String)
    (h : containsSub raw "</body>" = false) :
    (getCleanHTML d).1
      = "<!DOCTYPE html>\n" ++ serializeDom (cleanArtifacts (removeEditorScript d).1) ∧
    getFinalCode script raw = raw ++ script :=
  ⟨rfl, by simp [getFinalCode, h]⟩

theorem serialized_snapshot_doctype_header_witness :
    containsSub "<html><p>Hi</p></html>" "</body>" = false ∧
    (getCleanHTML sampleDoc).1
      = "<!DOCTYPE html>\n"
        ++ serializeDom (cleanArtifacts (removeEditorScript sampleDoc).1) ∧
    getFinalCode "<script id=wizard></script>" "<html><p>Hi</p></html>"
      = "<html><p>Hi</p></html>" ++ "<script id=wizard></script>" :=
  ⟨by decide,
   (serialized_snapshot_doctype_header sampleDoc "<script id=wizard></script>"
      "<html><p>Hi</p></html>" (by decide)).1,
   (serialized_snapshot_doctype_header sampleDoc "<script id=wizard></script>"
      "<html><p>Hi</p></html>" (by decide)).2⟩

/-! ## Tree lemmas -/

theorem nidOf_removeById (t : Nat) (d : Dom) : (removeById t d).nidOf = d.nidOf := by
  cases d
  simp [removeById, Dom.nidOf]

theorem nidOf_modById (t : Nat) (m : NodeMod) (d : Dom) : (modById t m d).nidOf = d.nidOf := by
  cases d
  simp only [modById]
  split <;> simp [Dom.nidOf]

theorem nidOf_modExcept (t : Nat) (m : NodeMod) (d : Dom) :
    (modExcept t m d).nidOf = d.nidOf := by
  cases d
  simp only [modExcept]
  split <;> simp [Dom.nidOf]

mutual

theorem occursB_eq_child (t : Nat) :
    ∀ d : Dom, occursB t d = (d.nidOf == t || occursAsChildB t d)
  | .node i tg a s tx cs => by
    simp [occursB, occursAsChildB, Dom.nidOf, occursListB_eq_child t cs]

theorem occursListB_eq_child (t : Nat) :
    ∀ cs : List Dom, occursListB t cs = occursAsChildListB t cs
  | [] => rfl
  | c :: rest => by
    simp [occursListB, occursAsChildListB, occursB_eq_child t c,
      occursListB_eq_child t rest, Bool.or_assoc]

end

mutual

theorem occursB_iff_count (t : Nat) :
    ∀ d : Dom, occursB t d = true ↔ 0 < countId t d
  | .node i tg a s tx cs => by
    simp only [occursB, countId, Bool.or_eq_true, beq_iff_eq]
    constructor
    · rintro (h | h)
      · simp [h]
      · have := (occursListB_iff_count t cs).mp h
        omega
    · intro h
      by_cases hi : i = t
      · exact Or.inl hi
      · simp [hi] at h
        exact Or.inr ((occursListB_iff_count t cs).mpr h)

theorem occursListB_iff_count (t : Nat) :
    ∀ cs : List Dom, occursListB t cs = true ↔ 0 < countIdList t cs
  | [] => by simp [occursListB, countIdList]
  | c :: rest => by
    simp only [occursListB, countIdList, Bool.or_eq_true]
    constructor
    · rintro (h | h)
      · have := (occursB_iff_count t c).mp h
        omega
      · have := (occursListB_iff_count t rest).mp h
        omega
    · intro h
      by_cases hc : 0 < countId t c
      · exact Or.inl ((occursB_iff_count t c).mpr hc)
      · exact Or.inr ((occursListB_iff_count t rest).mpr (by omega))

end

mutual

theorem findById_isSome (t : Nat) :
    ∀ d : Dom, (findById t d).isSome = occursB t d
  | .node i tg a s tx cs => by
    simp only [findById, occursB]
    by_cases hi : i = t
    · simp [hi]
    · simp [hi, findByIdList_isSome t cs]

theorem findByIdList_isSome (t : Nat) :
    ∀ cs : List Dom, (findByIdList t cs).isSome = occursListB t cs
  | [] => rfl
  | c :: rest => by
    simp only [findByIdList, occursListB]
    cases hc : findById t c with
    | some n =>
      have := findById_isSome t c
      rw [hc] at this
      simp [← this]
    | none =>
      have := findById_isSome t c
      rw [hc] at this
      simp [← this, findByIdList_isSome t rest]

end

theorem findById_none_of_count (t : Nat) (d : Dom) (h : countId t d = 0) :
    findById t d = none := by
  have hocc : ¬ occursB t d = true := by
    rw [occursB_iff_count]
    omega
  have := findById_isSome t d
  cases hf : findById t d with
  | some n => rw [hf] at this; simp at this; exact absurd this hocc
  | none => rfl

mutual

theorem findById_nid (t : Nat) :
    ∀ d n, findById t d = some n → n.nidOf = t
  | .node i tg a s tx cs, n => by
    simp only [findById]
    by_cases hi : i = t
    · simp only [hi, if_pos rfl]
      intro h
      cases h
      simp [Dom.nidOf]
    · simp only [hi, if_neg hi]
      exact findByIdList_nid t cs n

theorem findByIdList_nid (t : Nat) :
    ∀ cs n, findByIdList t cs = some n → n.nidOf = t
  | [], n => by simp [findByIdList]
  | c :: rest, n => by
    simp only [findByIdList]
    cases hc : findById t c with
    | some n' =>
      intro h
      cases h
      exact findById_nid t c n hc
    | none => exact findByIdList_nid t rest n

end

mutual

theorem countId_le_of_find (t a : Nat) :
    ∀ d n, findById t d = some n → countId a n ≤ countId a d
  | .node i tg a' s tx cs, n => by
    simp only [findById]
    by_cases hi : i = t
    · simp only [hi, if_pos rfl]
      intro h
      cases h
      exact Nat.le_refl _
    · simp only [hi, if_neg hi]
      intro h
      have := countId_le_of_findList t a cs n h
      simp only [countId]
      omega

theorem countId_le_of_findList (t a : Nat) :
    ∀ cs n, findByIdList t cs = some n → countId a n ≤ countIdList a cs
  | [], n => by simp [findByIdList]
  | c :: rest, n => by
    simp only [findByIdList]
    cases hc : findById t c with
    | some n' =>
      intro h
      cases h
      have := countId_le_of_find t a c n hc
      simp only [countIdList]
      omega
    | none =>
      intro h
      have := countId_le_of_findList t a rest n h
      simp only [countIdList]
      omega

end

theorem one_le_countId_self : ∀ d : Dom, 1 ≤ countId d.nidOf d
  | .node i tg a s tx cs => by
    simp [Dom.nidOf, countId]

theorem findById_self : ∀ x : Dom, findById x.nidOf x = some x
  | .node i tg a s tx cs => by
    simp [Dom.nidOf, findById]

theorem occursAsChildB_of_ne_root (t : Nat) (d : Dom) (hocc : occursB t d = true)
    (hroot : d.nidOf ≠ t) : occursAsChildB t d = true := by
  rw [occursB_eq_child] at hocc
  simpa [hroot] using hocc

mutual

theorem countId_modById (t : Nat) (m : NodeMod) (a : Nat) :
    ∀ d : Dom, countId a (modById t m d) = countId a d
  | .node i tg at_ s tx cs => by
    simp only [modById]
    split <;> simp [countId, countId_modByIdList t m a cs]

theorem countId_modByIdList (t : Nat) (m : NodeMod) (a : Nat) :
    ∀ cs : List Dom, countIdList a (modByIdList t m cs) = countIdList a cs
  | [] => rfl
  | c :: rest => by
    simp [modByIdList, countIdList, countId_modById t m a c,
      countId_modByIdList t m a rest]

end

mutual

theorem countId_modExcept (t : Nat) (m : NodeMod) (a : Nat) :
    ∀ d : Dom, countId a (modExcept t m d) = countId a d
  | .node i tg at_ s tx cs => by
    simp only [modExcept]
    split <;> simp [countId, countId_modExceptList t m a cs]

theorem countId_modExceptList (t : Nat) (m : NodeMod) (a : Nat) :
    ∀ cs : List Dom, countIdList a (modExceptList t m cs) = countIdList a cs
  | [] => rfl
  | c :: rest => by
    simp [modExceptList, countIdList, countId_modExcept t m a c,
      countId_modExceptList t m a rest]

end

theorem adjInListB_cons_of_head (a b : Nat) (y : Dom) (ys : List Dom)
    (h : hasAdjPairB a b y = true) : adjInListB a b (y :: ys) = true := by
  cases ys <;> simp [adjInListB, h]

theorem adjInListB_cons_of_tail (a b : Nat) (y : Dom) (ys : List Dom)
    (h : adjInListB a b ys = true) : adjInListB a b (y :: ys) = true := by
  cases ys with
  | nil => simp [adjInListB] at h
  | cons y' rest => simp [adjInListB, h]

mutual

theorem adj_modById (t : Nat) (m : NodeMod) (a b : Nat) :
    ∀ d : Dom, hasAdjPairB a b (modById t m d) = hasAdjPairB a b d
  | .node i tg at_ s tx cs => by
    simp only [modById]
    split <;> simp [hasAdjPairB, adj_modByIdList t m a b cs]

theorem adj_modByIdList (t : Nat) (m : NodeMod) (a b : Nat) :
    ∀ cs : List Dom, adjInListB a b (modByIdList t m cs) = adjInListB a b cs
  | [] => rfl
  | [c] => by
    simp [modByIdList, adjInListB, adj_modById t m a b c]
  | c :: c' :: rest => by
    have h1 := adj_modById t m a b c
    have h2 := adj_modByIdList t m a b (c' :: rest)
    have hn : (modById t m c').nidOf = c'.nidOf := nidOf_modById t m c'
    have hcn : (modById t m c).nidOf = c.nidOf := nidOf_modById t m c
    simp only [modByIdList] at h2 ⊢
    simp [adjInListB, h1, h2, hn, hcn]

end

mutual

theorem adj_modExcept (t : Nat) (m : NodeMod) (a b : Nat) :
    ∀ d : Dom, hasAdjPairB a b (modExcept t m d) = hasAdjPairB a b d
  | .node i tg at_ s tx cs => by
    simp only [modExcept]
    split <;> simp [hasAdjPairB, adj_modExceptList t m a b cs]

theorem adj_modExceptList (t : Nat) (m : NodeMod) (a b : Nat) :
    ∀ cs : List Dom, adjInListB a b (modExceptList t m cs) = adjInListB a b cs
  | [] => rfl
  | [c] => by
    simp [modExceptList, adjInListB, adj_modExcept t m a b c]
  | c :: c' :: rest => by
    have h1 := adj_modExcept t m a b c
    have h2 := adj_modExceptList t m a b (c' :: rest)
    have hn : (modExcept t m c').nidOf = c'.nidOf := nidOf_modExcept t m c'
    have hcn : (modExcept t m c).nidOf = c.nidOf := nidOf_modExcept t m c
    simp only [modExceptList] at h2 ⊢
    simp [adjInListB, h1, h2, hn, hcn]

end

mutual

theorem shape_modById (t : Nat) (m : NodeMod) :
    ∀ d : Dom, (modById t m d).shape = d.shape
  | .node i tg at_ s tx cs => by
    simp only [modById]
    split <;> simp [Dom.shape, shape_modByIdList t m cs]

theorem shape_modByIdList (t : Nat) (m : NodeMod) :
    ∀ cs : List Dom, shapeList (modByIdList t m cs) = shapeList cs
  | [] => rfl
  | c :: rest => by
    simp [modByIdList, shapeList, shape_modById t m c, shape_modByIdList t m rest]

end

mutual

theorem shape_modExcept (t : Nat) (m : NodeMod) :
    ∀ d : Dom, (modExcept t m d).shape = d.shape
  | .node i tg at_ s tx cs => by
    simp only [modExcept]
    split <;> simp [Dom.shape, shape_modExceptList t m cs]

theorem shape_modExceptList (t : Nat) (m : NodeMod) :
    ∀ cs : List Dom, shapeList (modExceptList t m cs) = shapeList cs
  | [] => rfl
  | c :: rest => by
    simp [modExceptList, shapeList, shape_modExcept t m c, shape_modExceptList t m rest]

end

mutual

theorem removeById_modById (t : Nat) (m : NodeMod) :
    ∀ d : Dom, d.nidOf ≠ t → removeById t (modById t m d) = removeById t d
  | .node i tg at_ s tx cs => by
    intro h
    simp [Dom.nidOf] at h
    simp [modById, h, removeById, removeByIdList_modByIdList t m cs]

theorem removeByIdList_modByIdList (t : Nat) (m : NodeMod) :
    ∀ cs : List Dom, removeByIdList t (modByIdList t m cs) = removeByIdList t cs
  | [] => rfl
  | c :: rest => by
    simp only [modByIdList, removeByIdList, nidOf_modById]
    by_cases h : c.nidOf = t
    · simp [h, removeByIdList_modByIdList t m rest]
    · simp [h, removeById_modById t m c h, removeByIdList_modByIdList t m rest]

end

/-- `updateSelectionUI` changes only inline styles: node counts are
untouched. -/
theorem countId_updateSelectionUI (el : Nat) (em : Bool) (a : Nat) (d : Dom) :
    countId a (updateSelectionUI el em d) = countId a d := by
  unfold updateSelectionUI setStyleById
  split <;> simp [countId_modById, countId_modExcept]

/-- `updateSelectionUI` changes only inline styles: sibling adjacency is
untouched. -/
theorem adj_updateSelectionUI (el : Nat) (em : Bool) (a b : Nat) (d : Dom) :
    hasAdjPairB a b (updateSelectionUI el em d) = hasAdjPairB a b d := by
  unfold updateSelectionUI setStyleById
  split <;> simp [adj_modById, adj_modExcept]

/-- `updateSelectionUI` changes only inline styles: the structural shape is
untouched. -/
theorem shape_updateSelectionUI (el : Nat) (em : Bool) (d : Dom) :
    (updateSelectionUI el em d).shape = d.shape := by
  unfold updateSelectionUI setStyleById
  split <;> simp [shape_modById, shape_modExcept]

mutual

theorem count_removeById_self (t : Nat) :
    ∀ d : Dom, d.nidOf ≠ t → countId t (removeById t d) = 0
  | .node i tg a s tx cs => by
    intro h
    simp only [Dom.nidOf] at h
    simp [removeById, countId, h, count_removeByIdList_self t cs]

theorem count_removeByIdList_self (t : Nat) :
    ∀ cs : List Dom, countIdList t (removeByIdList t cs) = 0
  | [] => rfl
  | c :: rest => by
    simp only [removeByIdList]
    by_cases h : c.nidOf = t
    · simp [h, count_removeByIdList_self t rest]
    · simp [h, countIdList, count_removeById_self t c h,
        count_removeByIdList_self t rest]

end

theorem occursAsChildB_false_of_count (t : Nat) (d : Dom) (h : countId t d = 0) :
    occursAsChildB t d = false := by
  have hno : ¬ occursB t d = true := by
    rw [occursB_iff_count]
    omega
  have hb : occursB t d = false := by
    cases hb' : occursB t d
    · rfl
    · exact absurd hb' hno
  rw [occursB_eq_child] at hb
  exact ((Bool.or_eq_false_iff).mp hb).2

theorem occursAsChildListB_false_of_count (t : Nat) (cs : List Dom)
    (h : countIdList t cs = 0) : occursAsChildListB t cs = false := by
  have hno : ¬ occursListB t cs = true := by
    rw [occursListB_iff_count]
    omega
  cases hb : occursAsChildListB t cs
  · rfl
  · rw [← occursListB_eq_child] at hb
    exact absurd hb hno

mutual

theorem insB_noop (t : Nat) (x : Dom) :
    ∀ d : Dom, occursAsChildB t d = false → insB t x d = d
  | .node i tg a s tx cs => by
    intro h
    simp only [occursAsChildB] at h
    simp [insB, insBList_noop t x cs h]

theorem insBList_noop (t : Nat) (x : Dom) :
    ∀ cs : List Dom, occursAsChildListB t cs = false → insBList t x cs = cs
  | [] => fun _ => rfl
  | c :: rest => by
    intro h
    simp only [occursAsChildListB, Bool.or_eq_false_iff, beq_eq_false_iff_ne] at h
    obtain ⟨⟨h1, h2⟩, h3⟩ := h
    simp [insBList, h1, insB_noop t x c h2, insBList_noop t x rest h3]

end

mutual

theorem insA_noop (t : Nat) (x : Dom) :
    ∀ d : Dom, occursAsChildB t d = false → insA t x d = d
  | .node i tg a s tx cs => by
    intro h
    simp only [occursAsChildB] at h
    simp [insA, insAList_noop t x cs h]

theorem insAList_noop (t : Nat) (x : Dom) :
    ∀ cs : List Dom, occursAsChildListB t cs = false → insAList t x cs = cs
  | [] => fun _ => rfl
  | c :: rest => by
    intro h
    simp only [occursAsChildListB, Bool.or_eq_false_iff, beq_eq_false_iff_ne] at h
    obtain ⟨⟨h1, h2⟩, h3⟩ := h
    simp [insAList, h1, insA_noop t x c h2, insAList_noop t x rest h3]

end

mutual

theorem insB_adj (t : Nat) (x : Dom) :
    ∀ d : Dom, occursAsChildB t d = true →
      hasAdjPairB x.nidOf t (insB t x d) = true
  | .node i tg a s tx cs => by
    intro h
    simp only [occursAsChildB] at h
    simpa [insB, hasAdjPairB] using insBList_adj t x cs h

theorem insBList_adj (t : Nat) (x : Dom) :
    ∀ cs : List Dom, occursAsChildListB t cs = true →
      adjInListB x.nidOf t (insBList t x cs) = true
  | [] => by simp [occursAsChildListB]
  | c :: rest => by
    intro h
    by_cases hc : c.nidOf = t
    · simp [insBList, hc, adjInListB]
    · simp only [occursAsChildListB, Bool.or_eq_true, beq_iff_eq] at h
      rcases h with (h | h) | h
      · exact absurd h hc
      · have hadj := insB_adj t x c h
        simp only [insBList, if_neg hc]
        exact adjInListB_cons_of_head _ _ _ _ hadj
      · have hadj := insBList_adj t x rest h
        simp only [insBList, if_neg hc]
        exact adjInListB_cons_of_tail _ _ _ _ hadj

end

mutual

theorem insA_adj (t : Nat) (x : Dom) :
    ∀ d : Dom, occursAsChildB t d = true →
      hasAdjPairB t x.nidOf (insA t x d) = true
  | .node i tg a s tx cs => by
    intro h
    simp only [occursAsChildB] at h
    simpa [insA, hasAdjPairB] using insAList_adj t x cs h

theorem insAList_adj (t : Nat) (x : Dom) :
    ∀ cs : List Dom, occursAsChildListB t cs = true →
      adjInListB t x.nidOf (insAList t x cs) = true
  | [] => by simp [occursAsChildListB]
  | c :: rest => by
    intro h
    by_cases hc : c.nidOf = t
    · simp [insAList, hc, adjInListB]
    · simp only [occursAsChildListB, Bool.or_eq_true, beq_iff_eq] at h
      rcases h with (h | h) | h
      · exact absurd h hc
      · have hadj := insA_adj t x c h
        simp only [insAList, if_neg hc]
        exact adjInListB_cons_of_head _ _ _ _ hadj
      · have hadj := insAList_adj t x rest h
        simp only [insAList, if_neg hc]
        exact adjInListB_cons_of_tail _ _ _ _ hadj

end

mutual

theorem insB_count (t : Nat) (x : Dom) (a : Nat) :
    ∀ d : Dom, d.nidOf ≠ t → countId t d = 1 →
      countId a (insB t x d) = countId a d + countId a x
  | .node i tg at_ s tx cs => by
    intro hne h1
    simp only [Dom.nidOf] at hne
    simp only [countId, if_neg hne, Nat.zero_add] at h1
    simp only [insB, countId]
    rw [insBList_count t x a cs h1]
    omega

theorem insBList_count (t : Nat) (x : Dom) (a : Nat) :
    ∀ cs : List Dom, countIdList t cs = 1 →
      countIdList a (insBList t x cs) = countIdList a cs + countId a x
  | [] => by simp [countIdList]
  | c :: rest => by
    intro h
    by_cases hc : c.nidOf = t
    · simp only [insBList, if_pos hc, countIdList]
      omega
    · simp only [countIdList] at h
      have hsplit : countId t c = 1 ∧ countIdList t rest = 0 ∨
          countId t c = 0 ∧ countIdList t rest = 1 := by omega
      rcases hsplit with ⟨h1, h2⟩ | ⟨h1, h2⟩
      · have hrest : insBList t x rest = rest :=
          insBList_noop t x rest (occursAsChildListB_false_of_count t rest h2)
        simp only [insBList, if_neg hc, countIdList, hrest,
          insB_count t x a c hc h1]
        omega
      · have hc' : insB t x c = c :=
          insB_noop t x c (occursAsChildB_false_of_count t c h1)
        simp only [insBList, if_neg hc, countIdList, hc',
          insBList_count t x a rest h2]
        omega

end

mutual

theorem insA_count (t : Nat) (x : Dom) (a : Nat) :
    ∀ d : Dom, d.nidOf ≠ t → countId t d = 1 →
      countId a (insA t x d) = countId a d + countId a x
  | .node i tg at_ s tx cs => by
    intro hne h1
    simp only [Dom.nidOf] at hne
    simp only [countId, if_neg hne, Nat.zero_add] at h1
    simp only [insA, countId]
    rw [insAList_count t x a cs h1]
    omega

theorem insAList_count (t : Nat) (x : Dom) (a : Nat) :
    ∀ cs : List Dom, countIdList t cs = 1 →
      countIdList a (insAList t x cs) = countIdList a cs + countId a x
  | [] => by simp [countIdList]
  | c :: rest => by
    intro h
    by_cases hc : c.nidOf = t
    · simp only [insAList, if_pos hc, countIdList]
      omega
    · simp only [countIdList] at h
      have hsplit : countId t c = 1 ∧ countIdList t rest = 0 ∨
          countId t c = 0 ∧ countIdList t rest = 1 := by omega
      rcases hsplit with ⟨h1, h2⟩ | ⟨h1, h2⟩
      · have hrest : insAList t x rest = rest :=
          insAList_noop t x rest (occursAsChildListB_false_of_count t rest h2)
        simp only [insAList, if_neg hc, countIdList, hrest,
          insA_count t x a c hc h1]
        omega
      · have hc' : insA t x c = c :=
          insA_noop t x c (occursAsChildB_false_of_count t c h1)
        simp only [insAList, if_neg hc, countIdList, hc',
          insAList_count t x a rest h2]
        omega

end

mutual

theorem insA_find_fresh (t : Nat) (x : Dom) :
    ∀ d : Dom, countId x.nidOf d = 0 → occursAsChildB t d = true →
      findById x.nidOf (insA t x d) = some x
  | .node i tg a s tx cs => by
    intro h0 hocc
    simp only [countId] at h0
    have hi : ¬ i = x.nidOf := by
      intro hh
      simp [hh] at h0
    have hl : countIdList x.nidOf cs = 0 := by
      simp only [if_neg hi] at h0
      omega
    simp only [occursAsChildB] at hocc
    simp only [insA, findById, if_neg hi]
    exact insAList_find_fresh t x cs hl hocc

theorem insAList_find_fresh (t : Nat) (x : Dom) :
    ∀ cs : List Dom, countIdList x.nidOf cs = 0 → occursAsChildListB t cs = true →
      findByIdList x.nidOf (insAList t x cs) = some x
  | [] => by simp [occursAsChildListB]
  | c :: rest => by
    intro h0 hocc
    have hc0 : countId x.nidOf c = 0 ∧ countIdList x.nidOf rest = 0 := by
      simp only [countIdList] at h0
      omega
    by_cases hc : c.nidOf = t
    · simp only [insAList, if_pos hc, findByIdList,
        findById_none_of_count _ _ hc0.1, findById_self x]
    · by_cases hcc : occursAsChildB t c = true
      · simp only [insAList, if_neg hc, findByIdList,
          insA_find_fresh t x c hc0.1 hcc]
      · have hcfalse : occursAsChildB t c = false := by
          cases hb : occursAsChildB t c
          · rfl
          · exact absurd hb hcc
        have hrest : occursAsChildListB t rest = true := by
          simp only [occursAsChildListB, Bool.or_eq_true, beq_iff_eq] at hocc
          rcases hocc with (h | h) | h
          · exact absurd h hc
          · exact absurd h hcc
          · exact h
        rw [insAList, if_neg hc, findByIdList, insA_noop t x c hcfalse,
          findById_none_of_count _ _ hc0.1]
        exact insAList_find_fresh t x rest hc0.2 hrest

end

mutual

theorem findById_appendUnder (p : Nat) (x : Dom) :
    ∀ d : Dom, findById p (appendUnder p x d)
      = (findById p d).map (fun n =>
          Dom.node n.nidOf n.tagOf n.attrsOf n.styleOf n.textOf (n.childrenOf ++ [x]))
  | .node i tg a s tx cs => by
    by_cases hi : i = p
    · subst hi
      simp [appendUnder, findById, Dom.nidOf, Dom.tagOf, Dom.attrsOf, Dom.styleOf,
        Dom.textOf, Dom.childrenOf]
    · simp [appendUnder, hi, findById, findByIdList_appendUnder p x cs]

theorem findByIdList_appendUnder (p : Nat) (x : Dom) :
    ∀ cs : List Dom, findByIdList p (appendUnderList p x cs)
      = (findByIdList p cs).map (fun n =>
          Dom.node n.nidOf n.tagOf n.attrsOf n.styleOf n.textOf (n.childrenOf ++ [x]))
  | [] => rfl
  | c :: rest => by
    simp only [appendUnderList, findByIdList, findById_appendUnder p x c]
    cases hc : findById p c <;> simp [findByIdList_appendUnder p x rest]

end

mutual

theorem findById_modById (t t' : Nat) (m : NodeMod) :
    ∀ d : Dom, findById t (modById t' m d) = (findById t d).map (modById t' m)
  | .node i tg a s tx cs => by
    by_cases hi : i = t
    · subst hi
      simp only [modById, findById]
      split <;> (rename_i h' ; simp [findById, modById, h'])
    · have hl := findByIdList_modById t t' m cs
      simp only [modById, findById]
      split <;> simp [findById, hi, hl]

theorem findByIdList_modById (t t' : Nat) (m : NodeMod) :
    ∀ cs : List Dom, findByIdList t (modByIdList t' m cs)
      = (findByIdList t cs).map (modById t' m)
  | [] => rfl
  | c :: rest => by
    simp only [modByIdList, findByIdList, findById_modById t t' m c]
    cases hc : findById t c <;> simp [findByIdList_modById t t' m rest]

end

mutual

theorem findById_modExcept (t k : Nat) (m : NodeMod) :
    ∀ d : Dom, findById t (modExcept k m d) = (findById t d).map (modExcept k m)
  | .node i tg a s tx cs => by
    by_cases hi : i = t
    · subst hi
      simp only [modExcept, findById]
      split <;> (rename_i h' ; simp [findById, modExcept, h'])
    · have hl := findByIdList_modExcept t k m cs
      simp only [modExcept, findById]
      split <;> simp [findById, hi, hl]

theorem findByIdList_modExcept (t k : Nat) (m : NodeMod) :
    ∀ cs : List Dom, findByIdList t (modExceptList k m cs)
      = (findByIdList t cs).map (modExcept k m)
  | [] => rfl
  | c :: rest => by
    simp only [modExceptList, findByIdList, findById_modExcept t k m c]
    cases hc : findById t c <;> simp [findByIdList_modExcept t k m rest]

end

theorem modById_styleOf_self (t : Nat) (m : NodeMod) (n : Dom) (h : n.nidOf = t) :
    (modById t m n).styleOf = m.style n.styleOf := by
  cases n
  simp only [Dom.nidOf] at h
  simp [modById, h, Dom.styleOf]

theorem modById_attrsOf_self (t : Nat) (m : NodeMod) (n : Dom) (h : n.nidOf = t) :
    (modById t m n).attrsOf = m.attrs n.attrsOf := by
  cases n
  simp only [Dom.nidOf] at h
  simp [modById, h, Dom.attrsOf]

theorem modById_styleOf_other (t : Nat) (m : NodeMod) (n : Dom) (h : n.nidOf ≠ t) :
    (modById t m n).styleOf = n.styleOf := by
  cases n
  simp only [Dom.nidOf] at h
  simp [modById, h, Dom.styleOf]

theorem modById_attrsOf_other (t : Nat) (m : NodeMod) (n : Dom) (h : n.nidOf ≠ t) :
    (modById t m n).attrsOf = n.attrsOf := by
  cases n
  simp only [Dom.nidOf] at h
  simp [modById, h, Dom.attrsOf]

theorem getAssoc_removeAssoc_self (k : String) (l : List (String × String)) :
    getAssoc k (removeAssoc k l) = none := by
  induction l with
  | nil => rfl
  | cons p rest ih =>
    by_cases h : p.1 = k
    · simpa [removeAssoc, h] using ih
    · simpa [removeAssoc, h, getAssoc] using ih

theorem styleValue_clear_self (k : String) (l : List (String × String)) :
    styleValue k (setStyleProp k "" l) = "" := by
  simp [setStyleProp, styleValue, getAssoc_removeAssoc_self]

theorem sample_release_above : (2 : Rat) < 0 + 10 / 2 := by norm_num

/-- C9 counterexample: with edit mode on, click the paragraph (identity 2)
of the sample document — selection sets both `outline` and
`outlineOffset` on it — then deliver `SET_EDIT_MODE false`.  The handler
clears only the `outline` style, so the element still carries the
`outlineOffset: -3px` selection artifact even though the selection itself
is cleared: not all selection-visual outline styles are removed. -/
theorem set_edit_mode_off_outline_offset_persists :
    styleValueById 2 "outlineOffset"
      (handleSetEditMode (applySelectClick sampleState 2).1 false).doc = "-3px" ∧
    (handleSetEditMode (applySelectClick sampleState 2).1 false).selected = none := by
  constructor <;> rfl

/-- C9 amended: toggling Edit Mode from true to false with an active
selection clears the selection (the next query reports none), removes the
selected element's `outline` style and its `contenteditable` attribute —
though the `outlineOffset` style set at selection time is left in place —
and every `UPDATE_STYLE` or `DELETE_ELEMENT` received when no selection
exists is a silent no-op that leaves the state unchanged and emits
nothing.  The selection is never the body (the `mousedown` handler ignores
it), whence `s ≠ st.bodyId`. -/
theorem set_edit_mode_off_amended (st : RtState) (s : Nat)
    (hsel : st.selected = some s) (hocc : occursB s st.doc = true)
    (hbody : s ≠ st.bodyId) :
    (handleSetEditMode st false).selected = none ∧
    (handleSetEditMode st false).editMode = false ∧
    styleValueById s "outline" (handleSetEditMode st false).doc = "" ∧
    attrValueById s "contenteditable" (handleSetEditMode st false).doc = none ∧
    (∀ st₂ : RtState, st₂.selected = none →
      (∀ k v, handleUpdateStyle st₂ k v = (st₂, [])) ∧
      handleDeleteElement st₂ = (st₂, [])) := by
  obtain ⟨n₀, hn₀⟩ : ∃ n₀, findById s st.doc = some n₀ := by
    have hs := findById_isSome s st.doc
    rw [hocc] at hs
    cases hf : findById s st.doc with
    | some n => exact ⟨n, rfl⟩
    | none => rw [hf] at hs; simp at hs
  have hnid : n₀.nidOf = s := findById_nid s st.doc n₀ hn₀
  have hdoc : (handleSetEditMode st false).doc
      = setStyleById st.bodyId "cursor" "default"
          (removeAttrById s "contenteditable" (setStyleById s "outline" "" st.doc)) := by
    simp [handleSetEditMode, hsel]
  have hfind3 : findById s (handleSetEditMode st false).doc
      = some (modById st.bodyId ⟨id, setStyleProp "cursor" "default"⟩
          (modById s ⟨removeAssoc "contenteditable", id⟩
            (modById s ⟨id, setStyleProp "outline" ""⟩ n₀))) := by
    rw [hdoc]
    simp only [setStyleById, removeAttrById]
    rw [findById_modById, findById_modById, findById_modById, hn₀]
    rfl
  have hnid1 : (modById s ⟨id, setStyleProp "outline" ""⟩ n₀).nidOf = s := by
    rw [nidOf_modById, hnid]
  have hnid2 : (modById s ⟨removeAssoc "contenteditable", id⟩
      (modById s ⟨id, setStyleProp "outline" ""⟩ n₀)).nidOf = s := by
    rw [nidOf_modById, hnid1]
  refine ⟨?_, ?_, ?_, ?_, ?_⟩
  · simp [handleSetEditMode, hsel]
  · simp [handleSetEditMode, hsel]
  · simp only [styleValueById, hfind3]
    rw [modById_styleOf_other _ _ _ (by rw [hnid2]; exact hbody)]
    rw [modById_styleOf_self _ _ _ hnid1]
    simp only [NodeMod.style, id_eq]
    rw [modById_styleOf_self _ _ _ hnid]
    exact styleValue_clear_self _ _
  · simp only [attrValueById, hfind3]
    rw [modById_attrsOf_other _ _ _ (by rw [hnid2]; exact hbody)]
    rw [modById_attrsOf_self _ _ _ hnid1]
    simp only [NodeMod.attrs]
    exact getAssoc_removeAssoc_self _ _
  · intro st₂ h2
    exact ⟨fun k v => by simp [handleUpdateStyle, h2], by simp [handleDeleteElement, h2]⟩

theorem set_edit_mode_off_amended_witness :
    (handleSetEditMode ⟨sampleDoc, some 2, true, 1⟩ false).selected = none ∧
    styleValueById 2 "outline" (handleSetEditMode ⟨sampleDoc, some 2, true, 1⟩ false).doc = "" ∧
    attrValueById 2 "contenteditable"
      (handleSetEditMode ⟨sampleDoc, some 2, true, 1⟩ false).doc = none :=
  ⟨(set_edit_mode_off_amended ⟨sampleDoc, some 2, true, 1⟩ 2 rfl (by decide) (by decide)).1,
   (set_edit_mode_off_amended ⟨sampleDoc, some 2, true, 1⟩ 2 rfl (by decide) (by decide)).2.2.1,
   (set_edit_mode_off_amended ⟨sampleDoc, some 2, true, 1⟩ 2 rfl (by decide) (by decide)).2.2.2.1⟩

/-- C8 counterexample: an `ADD_ELEMENT` whose text is the empty string
(the editor's "+ Section" button sends exactly this) produces an element
whose text is the fallback `"New Element"`, and an empty class string
falls back to `"p-4 m-2 rounded-lg"` — the element does not carry exactly
the given text and classes. -/
theorem add_element_empty_text_default :
    ((findById 9 (handleAddElement ⟨sampleDoc, some 2, true, 1⟩ "div" "" "w-full h-64" 9).1.doc).map
        Dom.textOf) = some "New Element" ∧
    ((findById 9 (handleAddElement ⟨sampleDoc, some 2, true, 1⟩ "p" "hello" "" 9).1.doc).map
        Dom.attrsOf) = some [("class", "p-4 m-2 rounded-lg")] := by
  constructor <;> rfl

/-- C8 amended: `ADD_ELEMENT (tag, text, classes)` constructs a new
element with the given tag, the given text when non-empty (else the
default `"New Element"`) and the given style classes when non-empty (else
the default `"p-4 m-2 rounded-lg"`); when a selection exists and is
attached it is inserted immediately after the selection, otherwise it is
appended at the end of the body's children; a serialized snapshot of the
new tree is emitted either way.  `newId` is the fresh identity of the
created element. -/
theorem add_element_amended (st : RtState) (tag text cls : String) (newId s : Nat)
    (hfresh : countId newId st.doc = 0) :
    (st.selected = some s → occursAsChildB s st.doc = true →
      findById newId (handleAddElement st tag text cls newId).1.doc
        = some (Dom.node newId tag
            [("class", if cls = "" then "p-4 m-2 rounded-lg" else cls)] []
            (if text = "" then "New Element" else text) []) ∧
      hasAdjPairB s newId (handleAddElement st tag text cls newId).1.doc = true) ∧
    (st.selected = none →
      (findById st.bodyId (handleAddElement st tag text cls newId).1.doc).map Dom.childrenOf
        = (findById st.bodyId st.doc).map (fun n => n.childrenOf
            ++ [Dom.node newId tag
                 [("class", if cls = "" then "p-4 m-2 rounded-lg" else cls)] []
                 (if text = "" then "New Element" else text) []])) ∧
    (handleAddElement st tag text cls newId).2
      = [syncMsg (handleAddElement st tag text cls newId).1.doc] := by
  refine ⟨fun hsel hocc => ?_, fun hsel => ?_, ?_⟩
  · have hdoc : (handleAddElement st tag text cls newId).1.doc
        = insA s (Dom.node newId tag
            [("class", if cls = "" then "p-4 m-2 rounded-lg" else cls)] []
            (if text = "" then "New Element" else text) []) st.doc := by
      simp [handleAddElement, hsel, hocc]
    rw [hdoc]
    exact ⟨insA_find_fresh s (Dom.node newId tag
        [("class", if cls = "" then "p-4 m-2 rounded-lg" else cls)] []
        (if text = "" then "New Element" else text) []) st.doc hfresh hocc,
      insA_adj s (Dom.node newId tag
        [("class", if cls = "" then "p-4 m-2 rounded-lg" else cls)] []
        (if text = "" then "New Element" else text) []) st.doc hocc⟩
  · have hdoc : (handleAddElement st tag text cls newId).1.doc
        = appendUnder st.bodyId (Dom.node newId tag
            [("class", if cls = "" then "p-4 m-2 rounded-lg" else cls)] []
            (if text = "" then "New Element" else text) []) st.doc := by
      simp [handleAddElement, hsel]
    rw [hdoc, findById_appendUnder]
    cases findById st.bodyId st.doc <;>
      simp [Dom.childrenOf, Dom.nidOf, Dom.tagOf, Dom.attrsOf, Dom.styleOf, Dom.textOf]
  · cases hsel : st.selected with
    | none => simp [handleAddElement, hsel]
    | some s' =>
      by_cases hch : occursAsChildB s' st.doc = true
      · simp [handleAddElement, hsel, hch]
      · have : occursAsChildB s' st.doc = false := by
          cases hb : occursAsChildB s' st.doc
          · rfl
          · exact absurd hb hch
        simp [handleAddElement, hsel, this]

theorem add_element_amended_witness :
    findById 9 (handleAddElement ⟨sampleDoc, some 2, true, 1⟩ "span" "yo" "c1" 9).1.doc
      = some (Dom.node 9 "span"
          [("class", if "c1" = "" then "p-4 m-2 rounded-lg" else "c1")] []
          (if "yo" = "" then "New Element" else "yo") []) ∧
    hasAdjPairB 2 9 (handleAddElement ⟨sampleDoc, some 2, true, 1⟩ "span" "yo" "c1" 9).1.doc
      = true :=
  ⟨((add_element_amended ⟨sampleDoc, some 2, true, 1⟩ "span" "yo" "c1" 9 2
      (by decide)).1 rfl (by decide)).1,
   ((add_element_amended ⟨sampleDoc, some 2, true, 1⟩ "span" "yo" "c1" 9 2
      (by decide)).1 rfl (by decide)).2⟩

/-- C6: on drag completion, when the hit-tested element under the release
point exists and is neither the dragged element, the body, nor the
document element, a release strictly above the target's vertical midpoint
moves the dragged element immediately before the target and a release at
or below the midpoint moves it immediately after (afterwards the dragged
element occurs exactly once in the tree); when `elementFromPoint` yields
nothing, the dragged element itself, the body, or the document element,
the tree's structure is unchanged (only the dragged element's transient
drag/selection styles are restored).  Hypotheses: the dragged element is
not the document element (the `mousedown` handler never starts a drag
there), element identities are unique (`countId … = 1`), and the drop
target survives detaching the dragged subtree (`elementFromPoint` cannot
return the drag origin or a descendant of it, because the origin's
pointer events are disabled during the drag). -/
theorem drag_drop_midpoint_rule (st : RtState) (dragId target : Nat) (rect : Rect)
    (y : Rat) (hroot : st.doc.nidOf ≠ dragId) (hdrag : countId dragId st.doc = 1)
    (htarget : countId target (removeById dragId st.doc) = 1)
    (hcond : target ≠ dragId ∧ target ≠ st.bodyId ∧ target ≠ st.doc.nidOf) :
    (y < rect.top + rect.height / 2 →
      hasAdjPairB dragId target (applyDrop st dragId (some (target, rect)) y).1.doc = true ∧
      countId dragId (applyDrop st dragId (some (target, rect)) y).1.doc = 1) ∧
    (¬ y < rect.top + rect.height / 2 →
      hasAdjPairB target dragId (applyDrop st dragId (some (target, rect)) y).1.doc = true ∧
      countId dragId (applyDrop st dragId (some (target, rect)) y).1.doc = 1) ∧
    (applyDrop st dragId none y).1.doc.shape = st.doc.shape ∧
    (applyDrop st dragId (some (dragId, rect)) y).1.doc.shape = st.doc.shape ∧
    (applyDrop st dragId (some (st.bodyId, rect)) y).1.doc.shape = st.doc.shape ∧
    (applyDrop st dragId (some (st.doc.nidOf, rect)) y).1.doc.shape = st.doc.shape := by
  obtain ⟨hc1, hc2, hc3⟩ := hcond
  have hsn : (setStyleById dragId "pointerEvents" ""
      (setStyleById dragId "opacity" "" st.doc)).nidOf = st.doc.nidOf := by
    simp [setStyleById, nidOf_modById]
  have hscount : countId dragId (setStyleById dragId "pointerEvents" ""
      (setStyleById dragId "opacity" "" st.doc)) = 1 := by
    simp [setStyleById, countId_modById, hdrag]
  have hsrem : removeById dragId (setStyleById dragId "pointerEvents" ""
        (setStyleById dragId "opacity" "" st.doc))
      = removeById dragId st.doc := by
    simp only [setStyleById]
    rw [removeById_modById _ _ _ (by rw [nidOf_modById]; exact hroot),
      removeById_modById _ _ _ hroot]
  obtain ⟨dsub, hdsub⟩ : ∃ n, findById dragId (setStyleById dragId "pointerEvents" ""
      (setStyleById dragId "opacity" "" st.doc)) = some n := by
    have hs := findById_isSome dragId (setStyleById dragId "pointerEvents" ""
      (setStyleById dragId "opacity" "" st.doc))
    have hocc : occursB dragId (setStyleById dragId "pointerEvents" ""
        (setStyleById dragId "opacity" "" st.doc)) = true := by
      rw [occursB_iff_count]
      omega
    rw [hocc] at hs
    cases hf : findById dragId (setStyleById dragId "pointerEvents" ""
        (setStyleById dragId "opacity" "" st.doc)) with
    | some n => exact ⟨n, rfl⟩
    | none => rw [hf] at hs; simp at hs
  have hdsubnid : dsub.nidOf = dragId := findById_nid _ _ _ hdsub
  have hdsubcnt : countId dragId dsub = 1 := by
    have hle := countId_le_of_find dragId dragId _ dsub hdsub
    have hge := one_le_countId_self dsub
    rw [hdsubnid] at hge
    omega
  have hdet0 : countId dragId (removeById dragId st.doc) = 0 :=
    count_removeById_self dragId st.doc hroot
  have hdetne : (removeById dragId st.doc).nidOf ≠ target := by
    rw [nidOf_removeById]
    exact fun h => hc3 h.symm
  have hdetocc : occursAsChildB target (removeById dragId st.doc) = true := by
    refine occursAsChildB_of_ne_root target _ ?_
      (by rw [nidOf_removeById]; exact fun h => hc3 h.symm)
    rw [occursB_iff_count]
    omega
  have hcond' : target ≠ dragId ∧ target ≠ st.bodyId ∧
      target ≠ (setStyleById dragId "pointerEvents" ""
        (setStyleById dragId "opacity" "" st.doc)).nidOf := by
    refine ⟨hc1, hc2, ?_⟩
    rw [hsn]
    exact hc3
  have hred : ∀ b : Bool, (applyDrop st dragId (some (target, rect)) y).1.doc
      = updateSelectionUI dragId st.editMode
          (if y < rect.top + rect.height / 2
            then insB target dsub (removeById dragId st.doc)
            else insA target dsub (removeById dragId st.doc)) := by
    intro _
    simp only [applyDrop, if_pos hcond', hdsub, hsrem]
  refine ⟨fun hy => ?_, fun hy => ?_, ?_, ?_, ?_, ?_⟩
  · rw [hred true, if_pos hy]
    constructor
    · rw [adj_updateSelectionUI]
      have := insB_adj target dsub (removeById dragId st.doc) hdetocc
      rwa [hdsubnid] at this
    · rw [countId_updateSelectionUI,
        insB_count target dsub dragId (removeById dragId st.doc) hdetne htarget,
        hdet0, hdsubcnt]
  · rw [hred true, if_neg hy]
    constructor
    · rw [adj_updateSelectionUI]
      have := insA_adj target dsub (removeById dragId st.doc) hdetocc
      rwa [hdsubnid] at this
    · rw [countId_updateSelectionUI,
        insA_count target dsub dragId (removeById dragId st.doc) hdetne htarget,
        hdet0, hdsubcnt]
  · have : (applyDrop st dragId none y).1.doc
        = updateSelectionUI dragId st.editMode (setStyleById dragId "pointerEvents" ""
            (setStyleById dragId "opacity" "" st.doc)) := by
      simp only [applyDrop]
    rw [this, shape_updateSelectionUI]
    simp [setStyleById, shape_modById]
  · have : (applyDrop st dragId (some (dragId, rect)) y).1.doc
        = updateSelectionUI dragId st.editMode (setStyleById dragId "pointerEvents" ""
            (setStyleById dragId "opacity" "" st.doc)) := by
      simp only [applyDrop, if_neg (by simp : ¬ (dragId ≠ dragId ∧ dragId ≠ st.bodyId ∧
        dragId ≠ (setStyleById dragId "pointerEvents" ""
          (setStyleById dragId "opacity" "" st.doc)).nidOf))]
    rw [this, shape_updateSelectionUI]
    simp [setStyleById, shape_modById]
  · have : (applyDrop st dragId (some (st.bodyId, rect)) y).1.doc
        = updateSelectionUI dragId st.editMode (setStyleById dragId "pointerEvents" ""
            (setStyleById dragId "opacity" "" st.doc)) := by
      simp only [applyDrop, if_neg (by simp : ¬ (st.bodyId ≠ dragId ∧
        st.bodyId ≠ st.bodyId ∧ st.bodyId ≠ (setStyleById dragId "pointerEvents" ""
          (setStyleById dragId "opacity" "" st.doc)).nidOf))]
    rw [this, shape_updateSelectionUI]
    simp [setStyleById, shape_modById]
  · have : (applyDrop st dragId (some (st.doc.nidOf, rect)) y).1.doc
        = updateSelectionUI dragId st.editMode (setStyleById dragId "pointerEvents" ""
            (setStyleById dragId "opacity" "" st.doc)) := by
      simp only [applyDrop, if_neg (by simp [hsn] : ¬ (st.doc.nidOf ≠ dragId ∧
        st.doc.nidOf ≠ st.bodyId ∧ st.doc.nidOf ≠ (setStyleById dragId "pointerEvents" ""
          (setStyleById dragId "opacity" "" st.doc)).nidOf))]
    rw [this, shape_updateSelectionUI]
    simp [setStyleById, shape_modById]

theorem drag_drop_midpoint_rule_witness :
    hasAdjPairB 3 2 (applyDrop sampleState 3 (some (2, ⟨0, 10⟩)) 2).1.doc = true ∧
    countId 3 (applyDrop sampleState 3 (some (2, ⟨0, 10⟩)) 2).1.doc = 1 :=
  (drag_drop_midpoint_rule sampleState 3 2 ⟨0, 10⟩ 2 (by decide) (by decide) (by decide)
    ⟨by decide, by decide, by decide⟩).1 sample_release_above

end WizardSite
